import Mathlib

/-!
Verification of the job orchestration and caching engine of the
Living-Seed-Cut media snippet service.

The definitions below are a shallow embedding of the Python source:
* `src/routes/extract.py` — job creation and the cancel endpoint;
* `src/services/extractor.py` — the extraction pipeline
  (`extract_snippet_async`), time parsing (`_parse_time`), range checks
  (`_validate_time_range`), the audio cache (`_generate_cache_key`,
  `_get_cached_audio`, `_cache_audio_file`) and the retention sweep
  (`_perform_cleanup`).

Timestamps are modelled as natural numbers of seconds, the float `percent`
field as a rational number, and the filesystem as a boolean predicate on
paths (or an explicit list of existing paths).  The in-memory dict stores
are modelled as association lists keyed by strings.
-/

namespace MediaCut

/-- Job status values used by the code
(`'created'`, `'processing'`, `'completed'`, `'failed'`, `'cancelled'`). -/
inductive Status
  | created
  | processing
  | completed
  | failed
  | cancelled
deriving DecidableEq, Repr

/-- A job record as stored in `job_storage`
(`src/routes/extract.py` lines 30-37 set the initial fields, the pipeline and
the cancel endpoint update them).  The `request` payload and the redundant
`job_id` field (the storage key) are omitted. -/
structure Job where
  status : Status
  progress : String
  percent : ℚ
  created_at : Nat
  completed_at : Option Nat := none
  cancelled_at : Option Nat := none
  error : Option String := none
  file_id : Option String := none
  file_size : Option Nat := none
  duration : Option ℚ := none
deriving DecidableEq, Repr

/-- The job record created by `create_extraction_job`
(`src/routes/extract.py` lines 30-37). -/
def initJob (now : Nat) : Job :=
  { status := .created
    progress := "Job created"
    percent := 0
    created_at := now }

/-- Look up a job by id in the job store (`job_storage[job_id]`). -/
def lookupJob (store : List (String × Job)) (job_id : String) : Option Job :=
  (store.find? (fun kv => kv.1 = job_id)).map (·.2)

/-- Overwrite the record stored under a key (dict assignment on an existing key). -/
def updateJob (store : List (String × Job)) (job_id : String) (j : Job) :
    List (String × Job) :=
  store.map (fun kv => if kv.1 = job_id then (kv.1, j) else kv)

/-- The mutation the cancel endpoint performs on a job record
(`src/routes/extract.py` lines 75-79). -/
def cancelUpdate (now : Nat) (j : Job) : Job :=
  { j with
    status := .cancelled
    progress := "Cancelled by user"
    percent := 0
    cancelled_at := some now }

/-- Outcome of the cancel endpoint: HTTP 404, HTTP 400, or success. -/
inductive CancelResult
  | notFound
  | invalidState
  | ok
deriving DecidableEq, Repr

/-- The `cancel_job` endpoint (`src/routes/extract.py` lines 63-87): 404 when
the id is unknown, 400 when the status is not `created`/`processing` (store
untouched), otherwise the record is rewritten by `cancelUpdate`. -/
def cancel_job (now : Nat) (store : List (String × Job)) (job_id : String) :
    CancelResult × List (String × Job) :=
  match lookupJob store job_id with
  | none => (.notFound, store)
  | some job =>
    if ¬ (job.status = .created ∨ job.status = .processing) then
      (.invalidState, store)
    else
      (.ok, updateJob store job_id (cancelUpdate now job))

/-! ### Time parsing (`_parse_time`, `src/services/extractor.py` lines 55-59 and 220-251) -/

/-- Python `str.strip()` modelled on character lists (whitespace trimmed at
both ends). -/
def trimChars (cs : List Char) : List Char :=
  ((cs.dropWhile Char.isWhitespace).reverse.dropWhile Char.isWhitespace).reverse

/-- Numeric value of a digit string, as Python `int` applied to a string of
decimal digits. -/
def natOfDigits (cs : List Char) : Nat :=
  cs.foldl (fun n c => n * 10 + (c.toNat - 48)) 0

/-- The pattern `\d+` anchored at both ends (third entry of
`AudioSnippetExtractor.TIME_PATTERNS`); on a stripped string it also
coincides with the `str.isdigit()` test of `_parse_time`. -/
def matchSec (cs : List Char) : Bool :=
  !cs.isEmpty && cs.all Char.isDigit

/-- The pattern of one or two digits, a colon, and exactly two digits
(second entry of `TIME_PATTERNS`, the `MM:SS` shape). -/
def matchMS : List Char → Bool
  | [m1, ':', s1, s2] => m1.isDigit && s1.isDigit && s2.isDigit
  | [m1, m2, ':', s1, s2] => m1.isDigit && m2.isDigit && s1.isDigit && s2.isDigit
  | _ => false

/-- The pattern of one or two digits, a colon, two digits, a colon, and two
digits (first entry of `TIME_PATTERNS`, the `HH:MM:SS` shape). -/
def matchHMS : List Char → Bool
  | [h1, ':', m1, m2, ':', s1, s2] =>
      h1.isDigit && m1.isDigit && m2.isDigit && s1.isDigit && s2.isDigit
  | [h1, h2, ':', m1, m2, ':', s1, s2] =>
      h1.isDigit && h2.isDigit && m1.isDigit && m2.isDigit && s1.isDigit &&
        s2.isDigit
  | _ => false

/-- `any(re.match(pattern, time_str.strip()) for pattern in TIME_PATTERNS)`
(`_parse_time`, line 222), on the already-stripped character list. -/
def timeShape (cs : List Char) : Bool :=
  matchHMS cs || matchMS cs || matchSec cs

/-- Python `str.split(':')` on character lists. -/
def splitCols : List Char → List (List Char)
  | [] => [[]]
  | c :: rest =>
    if c = ':' then [] :: splitCols rest
    else
      match splitCols rest with
      | [] => [[c]]
      | g :: gs => (c :: g) :: gs

/-- Body of `_parse_time` (lines 220-238) applied to the stripped character
list: reject unless one of the three patterns matches, return the integer
value of a pure-digit string, otherwise split on the colons and combine the
parts positionally. -/
def parseTimeCore (cs : List Char) : Except String Nat :=
  if timeShape cs = false then
    .error "Please enter a valid time format (e.g., 30, 0:30, 1:30, or 1:30:45)"
  else if matchSec cs then .ok (natOfDigits cs)
  else
    match splitCols cs with
    | [p1, p2] => .ok (natOfDigits p1 * 60 + natOfDigits p2)
    | [p1, p2, p3] =>
        .ok (natOfDigits p1 * 3600 + natOfDigits p2 * 60 + natOfDigits p3)
    | _ => .error "Please enter a valid time format"

/-- `_parse_time` on a string: strip, then parse. -/
def parse_time (s : String) : Except String Nat :=
  parseTimeCore (trimChars s.data)

/-- `_validate_time_range` (`src/services/extractor.py` lines 240-251): parse
both endpoints, reject unless start is strictly below end.  The negativity
check of the source is kept although it can never fire on parsed values. -/
def validate_time_range (start_time end_time : String) :
    Except String (Nat × Nat) :=
  match parse_time start_time with
  | .error e => .error e
  | .ok start_seconds =>
    match parse_time end_time with
    | .error e => .error e
    | .ok end_seconds =>
      if start_seconds ≥ end_seconds then
        .error "End time must be greater than start time"
      else if start_seconds < 0 ∨ end_seconds < 0 then
        .error "Time values cannot be negative"
      else .ok (start_seconds, end_seconds)

/-- Python `request.start_time.strip() if request.start_time else '0:00'`
(`extract_snippet_async`, line 456): a missing or empty (falsy) start time is
replaced by `0:00`, any other start time is stripped. -/
def normalizeStart : Option String → String
  | none => "0:00"
  | some s => if s = "" then "0:00" else String.mk (trimChars s.data)

/-- Range resolution for a non-full extraction
(`extract_snippet_async`, lines 454-463): a missing or empty start time
defaults to `0:00`, the range is validated, and a snippet longer than the
configured maximum snippet duration is rejected. -/
def resolveTrimRange (max_snippet : Nat) (start_time : Option String)
    (end_time : String) : Except String (Nat × Nat) :=
  match validate_time_range (normalizeStart start_time) end_time with
  | .error e => .error e
  | .ok (start_seconds, end_seconds) =>
    if end_seconds - start_seconds > max_snippet then
      .error "Audio snippet cannot be longer than the configured maximum duration."
    else .ok (start_seconds, end_seconds)

/-! ### URL validation (`_validate_url`, `src/services/extractor.py` lines
203-218, and `ExtractionRequest.validate_url`, `src/models/requests.py` lines
27-35).  Only the scheme/netloc split of the standard-library `urlparse` is
modelled, since the validators inspect nothing else. -/

/-- Characters allowed in a URL scheme after the leading letter
(letters, digits, `+`, `-`, `.`). -/
def isSchemeChar (c : Char) : Bool :=
  c.isAlphanum || c == '+' || c == '-' || c == '.'

/-- Split at the first colon: `some (before, after)` when a colon occurs. -/
def splitColon : List Char → Option (List Char × List Char)
  | [] => none
  | c :: rest =>
    if c = ':' then some ([], rest)
    else
      match splitColon rest with
      | some (pre, post) => some (c :: pre, post)
      | none => none

/-- The scheme/rest split of `urllib.parse.urlsplit`: the part before the
first colon is the scheme when it is non-empty, begins with a letter and
contains only scheme characters (the scheme is lowercased); otherwise the
URL has no scheme and is treated whole as the remainder. -/
def splitScheme (cs : List Char) : List Char × List Char :=
  match splitColon cs with
  | some (pre, post) =>
    match pre with
    | [] => ([], cs)
    | c0 :: _ =>
      if c0.isAlpha && pre.all isSchemeChar then (pre.map Char.toLower, post)
      else ([], cs)
  | none => ([], cs)

/-- The netloc of `urllib.parse.urlsplit`: present only when the remainder
after the scheme starts with `//`, extending to the next `/`, `?` or `#`. -/
def takeNetloc (cs : List Char) : List Char :=
  match cs with
  | '/' :: '/' :: rest =>
      rest.takeWhile (fun c => !(c == '/' || c == '?' || c == '#'))
  | _ => []

/-- Scheme and netloc of a URL as computed by `urllib.parse.urlparse`. -/
def urlparseSchemeNetloc (url : String) : String × String :=
  (String.mk (splitScheme url.data).1,
    String.mk (takeNetloc (splitScheme url.data).2))

/-- `_validate_url` (`src/services/extractor.py` lines 203-218): raise when
the parsed URL lacks a scheme or a netloc (the inner ValueError is caught
and re-raised with the user-facing message); a non-YouTube host is only
logged as a warning, never rejected. -/
def validate_url (url : String) : Except String Bool :=
  if (urlparseSchemeNetloc url).1 = "" ∨ (urlparseSchemeNetloc url).2 = "" then
    .error "Please enter a valid YouTube URL"
  else .ok true

/-- `ExtractionRequest.validate_url` (`src/models/requests.py` lines 27-35):
the same scheme/netloc presence check, returning the value unchanged. -/
def requestValidateUrl (v : String) : Except String String :=
  if (urlparseSchemeNetloc v).1 = "" ∨ (urlparseSchemeNetloc v).2 = "" then
    .error "Invalid URL"
  else .ok v

/-! ### Audio cache (`_generate_cache_key`, `_get_cached_audio`,
`_cache_audio_file`, `src/services/extractor.py` lines 268-314) -/

/-- A `cache_storage` entry (lines 309-313). -/
structure CacheEntry where
  path : String
  created_at : Nat
  url : String
deriving DecidableEq, Repr

/-- `cache_storage.get(key)`. -/
def lookupCache (store : List (String × CacheEntry)) (key : String) :
    Option CacheEntry :=
  (store.find? (fun kv => kv.1 = key)).map (·.2)

/-- `del cache_storage[key]`. -/
def removeCacheKey (store : List (String × CacheEntry)) (key : String) :
    List (String × CacheEntry) :=
  store.filter (fun kv => decide (¬ kv.1 = key))

/-- `_generate_cache_key` (lines 268-270): the md5 hex digest of the URL;
the digest computation is an external library call, abstracted as the
`hash` parameter. -/
def generate_cache_key (hash : String → String) (url : String) : String :=
  hash url

/-- The age test of `_get_cached_audio` (lines 284-285): the entry age in
hours exceeds the cache retention window; on integral second timestamps
dividing by 3600 and comparing equals the integer comparison below. -/
def cacheExpired (retention_hours now created_at : Nat) : Bool :=
  decide (3600 * retention_hours < now - created_at)

/-- `_get_cached_audio` (lines 272-301): a disabled cache or an absent key
is a miss; an expired entry is deleted (with its backing file) and is a
miss; an entry whose backing file no longer exists is deleted and is a miss;
otherwise the cached path is a hit.  The result carries the possibly-updated
store; the filesystem is a predicate on existing paths. -/
def get_cached_audio (cache_enabled : Bool) (retention_hours : Nat)
    (hash : String → String) (fs : String → Bool) (now : Nat)
    (store : List (String × CacheEntry)) (url : String) :
    Option String × List (String × CacheEntry) :=
  if !cache_enabled then (none, store)
  else
    match lookupCache store (generate_cache_key hash url) with
    | none => (none, store)
    | some cache_info =>
      if cacheExpired retention_hours now cache_info.created_at then
        (none, removeCacheKey store (generate_cache_key hash url))
      else if !(fs cache_info.path) then
        (none, removeCacheKey store (generate_cache_key hash url))
      else (some cache_info.path, store)

/-- `_cache_audio_file` (lines 303-314): unconditionally overwrite the entry
stored under the URL's key (no write when the cache is disabled).  Dict
assignment is modelled as remove-then-append, which has the same lookup
semantics. -/
def cache_audio_file (cache_enabled : Bool) (hash : String → String)
    (store : List (String × CacheEntry)) (url file_path : String) (now : Nat) :
    List (String × CacheEntry) :=
  if !cache_enabled then store
  else removeCacheKey store (generate_cache_key hash url) ++
    [(generate_cache_key hash url, ⟨file_path, now, url⟩)]

/-- Outcome of the raw-media acquisition step for an audio output. -/
structure AcquireResult where
  downloaded_file : String
  from_cache : Bool
  cache : List (String × CacheEntry)
deriving DecidableEq, Repr

/-- The acquire-raw-media step of `extract_snippet_async` for an audio
output (lines 476-559), abstracting the external download to the path it
produces: on a valid cache hit the cached path becomes `downloaded_file` and
no fetch happens; on a miss the freshly fetched path is used and immediately
written into the cache. -/
def acquireAudio (cache_enabled : Bool) (retention_hours : Nat)
    (hash : String → String) (fs : String → Bool) (now : Nat)
    (store : List (String × CacheEntry)) (url fetched_path : String) :
    AcquireResult :=
  match get_cached_audio cache_enabled retention_hours hash fs now store url with
  | (some cached_file, store1) => ⟨cached_file, true, store1⟩
  | (none, store1) =>
      ⟨fetched_path, false,
        cache_audio_file cache_enabled hash store1 url fetched_path now⟩

/-- The finalize-stage cleanup of `extract_snippet_async` (lines 662-664):
`if os.path.exists(downloaded_file): os.remove(downloaded_file)` — the raw
intermediate file is removed from the filesystem unconditionally, whatever
its origin.  The filesystem is the list of existing paths. -/
def cleanupTemporary (fsList : List String) (downloaded_file : String) :
    List String :=
  if downloaded_file ∈ fsList then fsList.erase downloaded_file else fsList

/-! ### Retention sweep over the File Store (`_perform_cleanup`,
`src/services/extractor.py` lines 105-201; the file-store phases are lines
109-141 and 167-183) -/

/-- A `file_storage` entry (written at lines 685-691). -/
structure FileInfo where
  path : String
  filename : String
  size : Nat
  created_at : Nat
  mime_type : String
deriving DecidableEq, Repr

/-- The age test of the sweep (lines 115-119): the file age in hours exceeds
the retention window; on integral second timestamps dividing by 3600 and
comparing equals the integer comparison below. -/
def fileExpired (retention_hours now created_at : Nat) : Bool :=
  decide (3600 * retention_hours < now - created_at)

/-- First file phase of `_perform_cleanup` (lines 109-141): entries older
than the retention window, or whose backing path no longer exists on disk,
are marked and then removed together with their file. -/
def sweepFilesAge (retention_hours : Nat) (fs : String → Bool) (now : Nat)
    (store : List (String × FileInfo)) : List (String × FileInfo) :=
  store.filter (fun kv =>
    !(fileExpired retention_hours now kv.2.created_at) && fs kv.2.path)

/-- The comparison key of the cap phase:
`sorted(file_storage.items(), key=lambda x: ...created_at)`. -/
def createdLE (a b : String × FileInfo) : Prop :=
  a.2.created_at ≤ b.2.created_at

instance : DecidableRel createdLE :=
  fun x y => Nat.decLe x.2.created_at y.2.created_at

instance : IsTotal (String × FileInfo) createdLE :=
  ⟨fun x y => Nat.le_total x.2.created_at y.2.created_at⟩

instance : IsTrans (String × FileInfo) createdLE :=
  ⟨fun _ _ _ hab hbc => Nat.le_trans hab hbc⟩

/-- Count-cap phase of `_perform_cleanup` (lines 167-183): when more than
`MAX_FILES` entries remain, the entries are sorted by `created_at` and the
oldest `len - MAX_FILES` of them are deleted from the store (and disk). -/
def sweepFilesCap (max_files : Nat) (store : List (String × FileInfo)) :
    List (String × FileInfo) :=
  if max_files < store.length then
    store.filter (fun kv =>
      decide (kv.1 ∉
        (((List.insertionSort createdLE store).take
          (store.length - max_files)).map (·.1))))
  else store

/-- The File Store portion of one sweep: age/missing eviction, then the
count cap. -/
def sweepFiles (retention_hours max_files : Nat) (fs : String → Bool)
    (now : Nat) (store : List (String × FileInfo)) :
    List (String × FileInfo) :=
  sweepFilesCap max_files (sweepFilesAge retention_hours fs now store)

/-- Sample file entry used in the sweep witness. -/
def demoFile (p : String) (t : Nat) : FileInfo :=
  ⟨p, "f.mp3", 10, t, "audio/mpeg"⟩

/-- Sample file store used in the sweep witness. -/
def demoFileStore : List (String × FileInfo) :=
  [("a", demoFile "/a" 5), ("b", demoFile "/b" 1), ("c", demoFile "/gone" 3)]

/-! ### The job state machine: pipeline writes interleaved with cancel
(`extract_snippet_async`, `src/services/extractor.py` lines 408-737, and the
cancel endpoint, `src/routes/extract.py` lines 63-87).  Each `JobWrite`
constructor is one `job_storage[job_id][...] = ...` update site of the
pipeline; the pipeline performs them in program order and never reads the
record's status first.  Progress strings that embed numbers in the source
(f-strings) are modelled by their constant prefix. -/

/-- The job-record writes `extract_snippet_async` performs. -/
inductive JobWrite
  | startProcessing
  | infoStage
  | cachedStage
  | dlVideoStage
  | dlAudioStage
  | dlHook (dp : ℚ)
  | dlEta
  | dlFinished
  | procVideoStage
  | procAudioStage
  | trimHook (t dur : ℚ)
  | videoHook (t dur : ℚ)
  | complete (now : Nat) (fid : String) (size : Nat) (dur : Option ℚ)
  | fail (now : Nat) (msg : String)
deriving DecidableEq, Repr

/-- Percent set by the download progress hook (lines 508-510):
`min(15.0 + download_percent * 0.55, 70.0)`. -/
def dlPercent (dp : ℚ) : ℚ := min (15 + dp * (55/100)) 70

/-- Percent set by the ffmpeg progress parser (lines 641-645):
`trim_percent = min(time/duration*100, 100)` then
`min(75.0 + trim_percent * 0.20, 95.0)`. -/
def trimPercent (t dur : ℚ) : ℚ :=
  min (75 + min (t / dur * 100) 100 * (20/100)) 95

/-- Percent set by the video-processing progress parser (lines 848-853):
`min(75.0 + (time/duration) * 20.0, 95.0)`. -/
def videoPercent (t dur : ℚ) : ℚ := min (75 + t / dur * 20) 95

/-- Apply one pipeline write to the job record.  Line references:
`startProcessing` 413-415, `infoStage` 426-427, `cachedStage` 481-482,
`dlVideoStage` 488-489, `dlAudioStage` 496-497, `dlHook` 504-511,
`dlEta` 514-515, `dlFinished` 516-518, `procVideoStage` 563-564,
`procAudioStage` 573-574, `trimHook` 637-648, `videoHook` 844-853,
`complete` 694-708, `fail` 713-736. -/
def applyWrite : JobWrite → Job → Job
  | .startProcessing, j =>
      { j with
        status := .processing
        progress := "Validating inputs..."
        percent := 5 }
  | .infoStage, j =>
      { j with progress := "Getting video information...", percent := 10 }
  | .cachedStage, j =>
      { j with progress := "Using cached audio...", percent := 70 }
  | .dlVideoStage, j =>
      { j with progress := "Downloading video...", percent := 15 }
  | .dlAudioStage, j =>
      { j with progress := "Downloading audio...", percent := 15 }
  | .dlHook dp, j =>
      { j with progress := "Downloading audio...", percent := dlPercent dp }
  | .dlEta, j => { j with progress := "Downloading audio... ETA" }
  | .dlFinished, j =>
      { j with progress := "Download completed, processing...", percent := 70 }
  | .procVideoStage, j =>
      { j with progress := "Processing video...", percent := 75 }
  | .procAudioStage, j =>
      { j with progress := "Processing audio...", percent := 75 }
  | .trimHook t dur, j =>
      if 0 < dur then
        { j with
          progress := "Processing audio..."
          percent := trimPercent t dur }
      else { j with progress := "Processing audio..." }
  | .videoHook t dur, j =>
      if 0 < dur then
        { j with
          progress := "Processing video..."
          percent := videoPercent t dur }
      else j
  | .complete now fid size dur, j =>
      { j with
        status := .completed
        progress := "Extraction completed"
        percent := 100
        completed_at := some now
        file_id := some fid
        file_size := some size
        duration := dur }
  | .fail now msg, j =>
      { j with
        status := .failed
        error := some msg
        completed_at := some now }

/-- Writes that end a pipeline run (success path lines 694-708, exception
handler lines 713-737). -/
def terminalWrite : JobWrite → Bool
  | .complete _ _ _ _ => true
  | .fail _ _ => true
  | _ => false

/-- A planned write sequence is well-formed when `complete`/`fail` occur
only as the final write, as in the source. -/
def lastOnly : List JobWrite → Bool
  | [] => true
  | w :: ws => if ws.isEmpty then true else !terminalWrite w && lastOnly ws

/-- A system state: the job record plus the writes its still-running
pipeline has yet to perform. -/
structure Sys where
  job : Job
  pending : List JobWrite
deriving DecidableEq, Repr

/-- One step of the system: the in-flight pipeline performs its next record
write (it never consults the status), or the cancel endpoint succeeds (only
from `created`/`processing`). -/
inductive Step : Sys → Sys → Prop
  | pipe (w : JobWrite) (rest : List JobWrite) (j : Job) :
      Step ⟨j, w :: rest⟩ ⟨applyWrite w j, rest⟩
  | cancel (now : Nat) (j : Job) (rest : List JobWrite)
      (h : j.status = .created ∨ j.status = .processing) :
      Step ⟨j, rest⟩ ⟨cancelUpdate now j, rest⟩

/-- Reachability through system steps. -/
abbrev Reaches : Sys → Sys → Prop := Relation.ReflTransGen Step

/-- Initial state: a freshly created job record plus the pipeline's planned
writes. -/
def initSys (now : Nat) (p : List JobWrite) : Sys := ⟨initJob now, p⟩

/-- Terminal job statuses. -/
def Terminal (st : Status) : Bool :=
  st = Status.completed || st = Status.failed || st = Status.cancelled

/-- Claim C1 as stated: along every interleaving of one pipeline's writes
with cancel requests, a job whose status is terminal never changes status
again. -/
def statusNeverLeavesTerminal : Prop :=
  ∀ (now : Nat) (p : List JobWrite), lastOnly p = true →
    ∀ s s' : Sys, Reaches (initSys now p) s → Step s s' →
      Terminal s.job.status = true → s'.job.status = s.job.status

/-- Claim C5 as stated: percent is non-decreasing across every update made
while the status is `processing`, and no update changes percent once the
status is terminal. -/
def percentMonotone : Prop :=
  ∀ (now : Nat) (p : List JobWrite), lastOnly p = true →
    ∀ s s' : Sys, Reaches (initSys now p) s → Step s s' →
      (s.job.status = Status.processing → s.job.percent ≤ s'.job.percent) ∧
      (Terminal s.job.status = true → s'.job.percent = s.job.percent)

/-- Invariant: pending writes stay well-formed, and a completed or failed
status means the pipeline has nothing left to write. -/
def SysInv (s : Sys) : Prop :=
  lastOnly s.pending = true ∧
    ((s.job.status = Status.completed ∨ s.job.status = Status.failed) →
      s.pending = [])

/-- The write sequence of a successful audio extraction without a cache hit:
validate, metadata, download (hook reports `dps`), transform (ffmpeg time
reports `tps` against snippet duration `dur`), complete. -/
def audioPipelineWrites (dps tps : List ℚ) (dur : ℚ) (now : Nat)
    (fid : String) (size : Nat) : List JobWrite :=
  [.startProcessing, .infoStage, .dlAudioStage] ++
    dps.map JobWrite.dlHook ++ [.dlFinished, .procAudioStage] ++
    tps.map (fun t => JobWrite.trimHook t dur) ++
    [.complete now fid size (some dur)]

/-- Run a list of writes over a record. -/
def runWrites (j : Job) : List JobWrite → Job
  | [] => j
  | w :: ws => runWrites (applyWrite w j) ws

/-- Percent never decreases across a run of writes from a given record. -/
def NonDecRun : Job → List JobWrite → Prop
  | _, [] => True
  | j, w :: ws =>
      j.percent ≤ (applyWrite w j).percent ∧ NonDecRun (applyWrite w j) ws

theorem lookupJob_updateJob (store : List (String × Job)) (job_id : String)
    (j j' : Job) (h : lookupJob store job_id = some j) :
    lookupJob (updateJob store job_id j') job_id = some j' := by
  induction store with
  | nil => simp [lookupJob] at h
  | cons kv rest ih =>
    by_cases hk : kv.1 = job_id
    · simp [lookupJob, updateJob, List.find?, hk]
    · have h' : lookupJob rest job_id = some j := by
        simpa [lookupJob, List.find?, hk] using h
      simpa [lookupJob, updateJob, List.find?, hk] using ih h'

/-- C2: cancelling a job whose status is `created` or `processing` succeeds,
rewriting the record to status `cancelled` with `cancelled_at` recorded;
cancelling a job in any other status returns the invalid-state error and
returns the store unchanged. -/
theorem cancel_job_spec (now : Nat) (store : List (String × Job))
    (job_id : String) (j : Job) (hfind : lookupJob store job_id = some j) :
    ((j.status = .created ∨ j.status = .processing) →
      cancel_job now store job_id =
        (.ok, updateJob store job_id (cancelUpdate now j)) ∧
      lookupJob (cancel_job now store job_id).2 job_id =
        some (cancelUpdate now j) ∧
      (cancelUpdate now j).status = .cancelled ∧
      (cancelUpdate now j).cancelled_at = some now) ∧
    (¬ (j.status = .created ∨ j.status = .processing) →
      cancel_job now store job_id = (.invalidState, store)) := by
  constructor
  · intro hok
    have hc : cancel_job now store job_id =
        (.ok, updateJob store job_id (cancelUpdate now j)) := by
      unfold cancel_job
      rw [hfind]
      simp [hok]
    refine ⟨hc, ?_, rfl, rfl⟩
    rw [hc]
    exact lookupJob_updateJob store job_id j _ hfind
  · intro hbad
    unfold cancel_job
    rw [hfind]
    simp [hbad]

theorem cancel_job_spec_witness :
    lookupJob [("a", initJob 7)] "a" = some (initJob 7) ∧
    cancel_job 9 [("a", initJob 7)] "a" =
      (.ok, updateJob [("a", initJob 7)] "a" (cancelUpdate 9 (initJob 7))) ∧
    cancel_job 9 [("b", cancelUpdate 9 (initJob 7))] "b" =
      (.invalidState, [("b", cancelUpdate 9 (initJob 7))]) := by
  refine ⟨by decide, ?_, ?_⟩
  · exact ((cancel_job_spec 9 [("a", initJob 7)] "a" (initJob 7)
      (by decide)).1 (Or.inl rfl)).1
  · exact (cancel_job_spec 9 [("b", cancelUpdate 9 (initJob 7))] "b"
      (cancelUpdate 9 (initJob 7)) (by decide)).2 (by decide)

theorem colon_not_digit : (':' : Char).isDigit = false := by decide

theorem ne_colon_of_isDigit {c : Char} (h : c.isDigit = true) : ¬ c = ':' := by
  intro e
  rw [e, colon_not_digit] at h
  exact Bool.false_ne_true h

theorem splitCols_msA {m1 s1 s2 : Char} (h1 : ¬ m1 = ':') (h2 : ¬ s1 = ':')
    (h3 : ¬ s2 = ':') : splitCols [m1, ':', s1, s2] = [[m1], [s1, s2]] := by
  simp [splitCols, h1, h2, h3]

theorem splitCols_msB {m1 m2 s1 s2 : Char} (h1 : ¬ m1 = ':') (h2 : ¬ m2 = ':')
    (h3 : ¬ s1 = ':') (h4 : ¬ s2 = ':') :
    splitCols [m1, m2, ':', s1, s2] = [[m1, m2], [s1, s2]] := by
  simp [splitCols, h1, h2, h3, h4]

theorem splitCols_hmsA {h1 m1 m2 s1 s2 : Char} (hh1 : ¬ h1 = ':')
    (hm1 : ¬ m1 = ':') (hm2 : ¬ m2 = ':') (hs1 : ¬ s1 = ':') (hs2 : ¬ s2 = ':') :
    splitCols [h1, ':', m1, m2, ':', s1, s2] = [[h1], [m1, m2], [s1, s2]] := by
  simp [splitCols, hh1, hm1, hm2, hs1, hs2]

theorem splitCols_hmsB {h1 h2 m1 m2 s1 s2 : Char} (hh1 : ¬ h1 = ':')
    (hh2 : ¬ h2 = ':') (hm1 : ¬ m1 = ':') (hm2 : ¬ m2 = ':') (hs1 : ¬ s1 = ':')
    (hs2 : ¬ s2 = ':') :
    splitCols [h1, h2, ':', m1, m2, ':', s1, s2] =
      [[h1, h2], [m1, m2], [s1, s2]] := by
  simp [splitCols, hh1, hh2, hm1, hm2, hs1, hs2]

theorem matchSec_eq_false_of_matchMS {cs : List Char} (h : matchMS cs = true) :
    matchSec cs = false := by
  unfold matchMS at h
  split at h
  · simp [matchSec, colon_not_digit]
  · simp [matchSec, colon_not_digit]
  · exact absurd h (by simp)

theorem matchSec_eq_false_of_matchHMS {cs : List Char}
    (h : matchHMS cs = true) : matchSec cs = false := by
  unfold matchHMS at h
  split at h
  · simp [matchSec, colon_not_digit]
  · simp [matchSec, colon_not_digit]
  · exact absurd h (by simp)

theorem parseTimeCore_ok_of_matchSec {cs : List Char} (h : matchSec cs = true) :
    parseTimeCore cs = .ok (natOfDigits cs) := by
  have ht : timeShape cs = true := by simp [timeShape, h]
  simp [parseTimeCore, ht, h]

theorem parseTimeCore_ok_of_matchMS {cs : List Char} (h : matchMS cs = true) :
    ∃ p1 p2, splitCols cs = [p1, p2] ∧
      parseTimeCore cs = .ok (natOfDigits p1 * 60 + natOfDigits p2) := by
  have ht : timeShape cs = true := by simp [timeShape, h]
  have hsec : matchSec cs = false := matchSec_eq_false_of_matchMS h
  unfold matchMS at h
  split at h
  next m1 s1 s2 =>
    simp only [Bool.and_eq_true] at h
    obtain ⟨⟨hm1, hs1⟩, hs2⟩ := h
    have hsp := splitCols_msA (ne_colon_of_isDigit hm1)
      (ne_colon_of_isDigit hs1) (ne_colon_of_isDigit hs2)
    exact ⟨[m1], [s1, s2], hsp, by simp [parseTimeCore, ht, hsec, hsp]⟩
  next m1 m2 s1 s2 =>
    simp only [Bool.and_eq_true] at h
    obtain ⟨⟨⟨hm1, hm2⟩, hs1⟩, hs2⟩ := h
    have hsp := splitCols_msB (ne_colon_of_isDigit hm1)
      (ne_colon_of_isDigit hm2) (ne_colon_of_isDigit hs1)
      (ne_colon_of_isDigit hs2)
    exact ⟨[m1, m2], [s1, s2], hsp, by simp [parseTimeCore, ht, hsec, hsp]⟩
  next => exact absurd h (by simp)

theorem parseTimeCore_ok_of_matchHMS {cs : List Char} (h : matchHMS cs = true) :
    ∃ p1 p2 p3, splitCols cs = [p1, p2, p3] ∧
      parseTimeCore cs =
        .ok (natOfDigits p1 * 3600 + natOfDigits p2 * 60 + natOfDigits p3) := by
  have ht : timeShape cs = true := by simp [timeShape, h]
  have hsec : matchSec cs = false := matchSec_eq_false_of_matchHMS h
  have hms : matchMS cs = false := by
    unfold matchHMS at h
    split at h
    · simp [matchMS]
    · simp [matchMS]
    · exact absurd h (by simp)
  unfold matchHMS at h
  split at h
  next h1 m1 m2 s1 s2 =>
    simp only [Bool.and_eq_true] at h
    obtain ⟨⟨⟨⟨hh1, hm1⟩, hm2⟩, hs1⟩, hs2⟩ := h
    have hsp := splitCols_hmsA (ne_colon_of_isDigit hh1)
      (ne_colon_of_isDigit hm1) (ne_colon_of_isDigit hm2)
      (ne_colon_of_isDigit hs1) (ne_colon_of_isDigit hs2)
    exact ⟨[h1], [m1, m2], [s1, s2], hsp,
      by simp [parseTimeCore, ht, hsec, hsp]⟩
  next h1 h2 m1 m2 s1 s2 =>
    simp only [Bool.and_eq_true] at h
    obtain ⟨⟨⟨⟨⟨hh1, hh2⟩, hm1⟩, hm2⟩, hs1⟩, hs2⟩ := h
    have hsp := splitCols_hmsB (ne_colon_of_isDigit hh1)
      (ne_colon_of_isDigit hh2) (ne_colon_of_isDigit hm1)
      (ne_colon_of_isDigit hm2) (ne_colon_of_isDigit hs1)
      (ne_colon_of_isDigit hs2)
    exact ⟨[h1, h2], [m1, m2], [s1, s2], hsp,
      by simp [parseTimeCore, ht, hsec, hsp]⟩
  next => exact absurd h (by simp)

theorem parseTimeCore_ok_iff (cs : List Char) :
    (∃ n, parseTimeCore cs = .ok n) ↔ timeShape cs = true := by
  constructor
  · rintro ⟨n, hn⟩
    by_contra hf
    have ht : timeShape cs = false := by
      revert hf
      cases timeShape cs <;> simp
    rw [parseTimeCore, if_pos ht] at hn
    exact Except.noConfusion hn
  · intro ht
    have ht' := ht
    simp only [timeShape, Bool.or_eq_true] at ht'
    rcases ht' with (hh | hm) | hs
    · obtain ⟨p1, p2, p3, _, hok⟩ := parseTimeCore_ok_of_matchHMS hh
      exact ⟨_, hok⟩
    · obtain ⟨p1, p2, _, hok⟩ := parseTimeCore_ok_of_matchMS hm
      exact ⟨_, hok⟩
    · exact ⟨_, parseTimeCore_ok_of_matchSec hs⟩

/-- C3: the time parser accepts exactly the three literal shapes of
`TIME_PATTERNS` (pure integer seconds, `M:SS`/`MM:SS`, `H:MM:SS`/`HH:MM:SS`)
and rejects every other string with a validation error; `"90"` parses to 90
seconds, `"1:30"` to 90, `"01:01:30"` to 3690, while `"1:30:"`, `"abc"` and
`"-5"` are all errors. -/
theorem parse_time_spec :
    (∀ s : String,
      (∃ n, parse_time s = .ok n) ↔ timeShape (trimChars s.data) = true) ∧
    parse_time "90" = .ok 90 ∧
    parse_time "1:30" = .ok 90 ∧
    parse_time "01:01:30" = .ok 3690 ∧
    (parse_time "1:30:").isOk = false ∧
    (parse_time "abc").isOk = false ∧
    (parse_time "-5").isOk = false := by
  refine ⟨fun s => parseTimeCore_ok_iff (trimChars s.data), ?_, ?_, ?_, ?_, ?_, ?_⟩
  all_goals rfl

/-- C10: in the `MM:SS` shape the minutes and seconds fields are not bounded
by 60 — every string of one or two digits, a colon, and exactly two digits is
accepted and evaluated as minutes times 60 plus seconds, so `"1:99"` parses
to 159 seconds instead of raising a validation error. -/
theorem parse_time_mmss_unbounded :
    (∀ s : String, matchMS (trimChars s.data) = true →
      ∃ p1 p2, splitCols (trimChars s.data) = [p1, p2] ∧
        parse_time s = .ok (natOfDigits p1 * 60 + natOfDigits p2)) ∧
    parse_time "1:99" = .ok 159 := by
  refine ⟨fun s h => parseTimeCore_ok_of_matchMS h, rfl⟩

theorem parse_time_mmss_unbounded_witness :
    matchMS (trimChars "1:99".data) = true ∧
    ∃ p1 p2, splitCols (trimChars "1:99".data) = [p1, p2] ∧
      parse_time "1:99" = .ok (natOfDigits p1 * 60 + natOfDigits p2) :=
  ⟨by decide, parse_time_mmss_unbounded.1 "1:99" (by decide)⟩

theorem head?_dropWhile_false {p : Char → Bool} :
    ∀ (l : List Char) (c : Char), (l.dropWhile p).head? = some c → p c = false := by
  intro l
  induction l with
  | nil => intro c h; simp at h
  | cons a t ih =>
    intro c h
    by_cases hp : p a
    · rw [List.dropWhile_cons, if_pos hp] at h
      exact ih c h
    · rw [List.dropWhile_cons, if_neg hp] at h
      simp only [List.head?_cons, Option.some.injEq] at h
      subst h
      simpa using hp

theorem dropWhile_eq_self_of_head? {p : Char → Bool} {l : List Char}
    (h : ∀ c, l.head? = some c → p c = false) : l.dropWhile p = l := by
  cases l with
  | nil => rfl
  | cons a t =>
    have ha : p a = false := h a rfl
    simp [List.dropWhile_cons, ha]

theorem getLast?_dropWhile {p : Char → Bool} :
    ∀ (l : List Char), l.dropWhile p ≠ [] → (l.dropWhile p).getLast? = l.getLast? := by
  intro l
  induction l with
  | nil => intro h; simp [List.dropWhile] at h
  | cons a t ih =>
    intro h
    by_cases hp : p a
    · rw [List.dropWhile_cons, if_pos hp] at h ⊢
      have ht : t ≠ [] := by
        intro e
        rw [e] at h
        exact h rfl
      cases t with
      | nil => exact absurd rfl ht
      | cons b u => rw [ih h, List.getLast?_cons_cons]
    · rw [List.dropWhile_cons, if_neg hp]

theorem trimChars_idem (cs : List Char) : trimChars (trimChars cs) = trimChars cs := by
  unfold trimChars
  rcases hB : (cs.dropWhile Char.isWhitespace).reverse.dropWhile Char.isWhitespace
    with _ | ⟨b, B'⟩
  · simp
  · have hBne : (cs.dropWhile Char.isWhitespace).reverse.dropWhile Char.isWhitespace ≠ [] := by
      rw [hB]; exact List.cons_ne_nil b B'
    have hstep1 : ((b :: B').reverse).dropWhile Char.isWhitespace = (b :: B').reverse := by
      apply dropWhile_eq_self_of_head?
      intro c hc
      rw [List.head?_reverse] at hc
      rw [← hB] at hc
      rw [getLast?_dropWhile _ hBne] at hc
      rw [List.getLast?_reverse] at hc
      exact head?_dropWhile_false cs c hc
    have hstep2 : ((b :: B').reverse.reverse).dropWhile Char.isWhitespace =
        b :: B' := by
      rw [List.reverse_reverse]
      apply dropWhile_eq_self_of_head?
      intro c hc
      rw [← hB] at hc
      exact head?_dropWhile_false _ c hc
    rw [hstep1, hstep2]

theorem parse_time_mk_trim (s : String) :
    parse_time (String.mk (trimChars s.data)) = parse_time s := by
  show parseTimeCore (trimChars (trimChars s.data)) = parseTimeCore (trimChars s.data)
  rw [trimChars_idem]

theorem validate_time_range_eq (st et : String) (vs ve : Nat)
    (hs : parse_time st = .ok vs) (he : parse_time et = .ok ve) :
    validate_time_range st et =
      if vs ≥ ve then .error "End time must be greater than start time"
      else if vs < 0 ∨ ve < 0 then .error "Time values cannot be negative"
      else .ok (vs, ve) := by
  unfold validate_time_range
  rw [hs, he]

theorem resolveTrimRange_eq (max_snippet : Nat) (start_time : Option String)
    (et : String) (vs ve : Nat)
    (hv : validate_time_range (normalizeStart start_time) et = .ok (vs, ve)) :
    resolveTrimRange max_snippet start_time et =
      if ve - vs > max_snippet then
        .error "Audio snippet cannot be longer than the configured maximum duration."
      else .ok (vs, ve) := by
  unfold resolveTrimRange
  rw [hv]

/-- C7: range resolution rejects any pair whose start is at or above its end
with a validation error, a missing start time defaults to zero seconds, and a
resolved snippet duration exceeding the configured maximum snippet duration
is rejected. -/
theorem range_resolution_spec :
    (∀ start_time end_time vs ve, parse_time start_time = .ok vs →
      parse_time end_time = .ok ve → ve ≤ vs →
      ∃ msg, validate_time_range start_time end_time = .error msg) ∧
    (∀ max_snippet end_time,
      resolveTrimRange max_snippet none end_time =
        resolveTrimRange max_snippet (some "0:00") end_time) ∧
    (∀ max_snippet end_time ve, parse_time end_time = .ok ve → 0 < ve →
      ve ≤ max_snippet →
      resolveTrimRange max_snippet none end_time = .ok (0, ve)) ∧
    (∀ max_snippet start_time end_time vs ve,
      parse_time start_time = .ok vs → parse_time end_time = .ok ve →
      vs < ve → max_snippet < ve - vs →
      ∃ msg, resolveTrimRange max_snippet (some start_time) end_time = .error msg) := by
  refine ⟨?_, ?_, ?_, ?_⟩
  · intro st et vs ve hs he hge
    rw [validate_time_range_eq st et vs ve hs he]
    rw [if_pos (show vs ≥ ve from hge)]
    exact ⟨_, rfl⟩
  · intro max_snippet et
    rfl
  · intro max_snippet et ve he h0 hle
    have h00 : parse_time "0:00" = .ok 0 := rfl
    have hv : validate_time_range (normalizeStart none) et = .ok (0, ve) := by
      rw [show normalizeStart none = "0:00" from rfl]
      rw [validate_time_range_eq "0:00" et 0 ve h00 he]
      rw [if_neg (by omega), if_neg (by omega)]
    rw [resolveTrimRange_eq max_snippet none et 0 ve hv]
    rw [if_neg (by omega)]
  · intro max_snippet st et vs ve hs he hlt hmax
    by_cases hst : st = ""
    · subst hst
      have hbad : parse_time "" =
          .error "Please enter a valid time format (e.g., 30, 0:30, 1:30, or 1:30:45)" := rfl
      rw [hbad] at hs
      exact Except.noConfusion hs
    · have hs' : parse_time (String.mk (trimChars st.data)) = .ok vs := by
        rw [parse_time_mk_trim]; exact hs
      have hv : validate_time_range (normalizeStart (some st)) et =
          .ok (vs, ve) := by
        rw [show normalizeStart (some st) = String.mk (trimChars st.data) from
          by simp [normalizeStart, hst]]
        rw [validate_time_range_eq _ et vs ve hs' he]
        rw [if_neg (by omega), if_neg (by omega)]
      rw [resolveTrimRange_eq max_snippet (some st) et vs ve hv]
      rw [if_pos (show ve - vs > max_snippet from hmax)]
      exact ⟨_, rfl⟩

theorem range_resolution_spec_witness :
    (∃ msg, validate_time_range "5" "3" = .error msg) ∧
    resolveTrimRange 100 none "30" = resolveTrimRange 100 (some "0:00") "30" ∧
    resolveTrimRange 100 none "30" = .ok (0, 30) ∧
    (∃ msg, resolveTrimRange 10 (some "5") "100" = .error msg) :=
  ⟨range_resolution_spec.1 "5" "3" 5 3 rfl rfl (by omega),
    range_resolution_spec.2.1 100 "30",
    range_resolution_spec.2.2.1 100 "30" 30 rfl (by omega) (by omega),
    range_resolution_spec.2.2.2 10 "5" "100" 5 100 rfl rfl (by omega) (by omega)⟩

/-- C9: source-URL validation raises a validation error exactly when the URL
lacks a scheme or a network location; every syntactically well-formed URL is
accepted even when its host is not a YouTube domain (a non-YouTube host is
only logged as a warning) — a vimeo URL passes both validators, while a bare
word and a host-less URL are rejected. -/
theorem validate_url_spec :
    (∀ url : String, (∃ b, validate_url url = .ok b) ↔
      ((urlparseSchemeNetloc url).1 ≠ "" ∧ (urlparseSchemeNetloc url).2 ≠ "")) ∧
    (∀ url : String,
      (requestValidateUrl url).isOk = (validate_url url).isOk) ∧
    validate_url "https://vimeo.com/12345" = .ok true ∧
    validate_url "https://www.youtube.com/watch?v=abc" = .ok true ∧
    (validate_url "notaurl").isOk = false ∧
    (validate_url "https://").isOk = false := by
  refine ⟨?_, ?_, rfl, rfl, rfl, rfl⟩
  · intro url
    unfold validate_url
    by_cases h : (urlparseSchemeNetloc url).1 = "" ∨ (urlparseSchemeNetloc url).2 = ""
    · rw [if_pos h]
      constructor
      · rintro ⟨b, hb⟩
        exact Except.noConfusion hb
      · rintro ⟨h1, h2⟩
        rcases h with h | h
        · exact absurd h h1
        · exact absurd h h2
    · rw [if_neg h]
      push_neg at h
      exact ⟨fun _ => h, fun _ => ⟨true, rfl⟩⟩
  · intro url
    unfold requestValidateUrl validate_url
    by_cases h : (urlparseSchemeNetloc url).1 = "" ∨ (urlparseSchemeNetloc url).2 = ""
    · rw [if_pos h, if_pos h]
      rfl
    · rw [if_neg h, if_neg h]
      rfl

theorem get_cached_audio_enabled (retention_hours : Nat)
    (hash : String → String) (fs : String → Bool) (now : Nat)
    (store : List (String × CacheEntry)) (url : String) :
    get_cached_audio true retention_hours hash fs now store url =
      match lookupCache store (generate_cache_key hash url) with
      | none => (none, store)
      | some cache_info =>
        if cacheExpired retention_hours now cache_info.created_at then
          (none, removeCacheKey store (generate_cache_key hash url))
        else if !(fs cache_info.path) then
          (none, removeCacheKey store (generate_cache_key hash url))
        else (some cache_info.path, store) := rfl

theorem lookupCache_removeCacheKey (store : List (String × CacheEntry))
    (key : String) :
    lookupCache (removeCacheKey store key) key = none := by
  induction store with
  | nil => rfl
  | cons kv rest ih =>
    unfold removeCacheKey at ih ⊢
    rw [List.filter_cons]
    by_cases hk : kv.1 = key
    · rw [show (decide (¬ kv.1 = key)) = false from by simp [hk]]
      rw [if_neg Bool.false_ne_true]
      exact ih
    · rw [show (decide (¬ kv.1 = key)) = true from by simp [hk]]
      rw [if_pos rfl]
      unfold lookupCache at ih ⊢
      rw [List.find?_cons_of_neg _ (by simp [hk])]
      exact ih

/-- C6: with the cache enabled, a lookup is a hit exactly when an entry
exists under the URL's fingerprint key, its backing file still exists, and
its age is within the retention window; in every other case the lookup is a
miss, and a stale entry (expired or with a missing backing file) is deleted
from the store by the lookup itself. -/
theorem cache_lookup_spec (retention_hours now : Nat) (hash : String → String)
    (fs : String → Bool) (store : List (String × CacheEntry)) (url : String) :
    (∀ e, lookupCache store (generate_cache_key hash url) = some e →
      ((cacheExpired retention_hours now e.created_at = false ∧
          fs e.path = true) →
        get_cached_audio true retention_hours hash fs now store url =
          (some e.path, store)) ∧
      ((cacheExpired retention_hours now e.created_at = true ∨
          fs e.path = false) →
        (get_cached_audio true retention_hours hash fs now store url).1 = none ∧
        lookupCache
          (get_cached_audio true retention_hours hash fs now store url).2
          (generate_cache_key hash url) = none)) ∧
    (lookupCache store (generate_cache_key hash url) = none →
      get_cached_audio true retention_hours hash fs now store url =
        (none, store)) ∧
    (∀ p, (get_cached_audio true retention_hours hash fs now store url).1 =
        some p →
      ∃ e, lookupCache store (generate_cache_key hash url) = some e ∧
        p = e.path ∧ fs e.path = true ∧
        cacheExpired retention_hours now e.created_at = false) := by
  refine ⟨?_, ?_, ?_⟩
  · intro e he
    constructor
    · rintro ⟨hex, hfs⟩
      rw [get_cached_audio_enabled, he]
      simp [hex, hfs]
    · intro hstale
      rw [get_cached_audio_enabled, he]
      rcases hstale with hex | hfs
      · simp only [hex, if_true]
        exact ⟨by trivial, lookupCache_removeCacheKey store _⟩
      · by_cases hex : cacheExpired retention_hours now e.created_at
        · simp only [hex, if_true]
          exact ⟨by trivial, lookupCache_removeCacheKey store _⟩
        · simp only [hex, if_false, hfs, Bool.not_false, if_true]
          exact ⟨by trivial, lookupCache_removeCacheKey store _⟩
  · intro hnone
    rw [get_cached_audio_enabled, hnone]
  · intro p hp
    rcases hfind : lookupCache store (generate_cache_key hash url)
      with _ | e
    · rw [get_cached_audio_enabled, hfind] at hp
      exact Option.noConfusion hp
    · rw [get_cached_audio_enabled, hfind] at hp
      by_cases hex : cacheExpired retention_hours now e.created_at
      · simp [hex] at hp
      · by_cases hfs : fs e.path
        · simp only [hex, if_false, hfs, Bool.not_true, if_false] at hp
          refine ⟨e, rfl, ?_, hfs, by simpa using hex⟩
          simpa using hp.symm
        · simp [hex, hfs] at hp

theorem cache_lookup_spec_witness :
    get_cached_audio true 6 (fun s => s) (fun p => p == "/tmp/a.m4a") 1000
      [("https://youtu.be/x", ⟨"/tmp/a.m4a", 0, "https://youtu.be/x"⟩)]
      "https://youtu.be/x" =
      (some "/tmp/a.m4a",
        [("https://youtu.be/x", ⟨"/tmp/a.m4a", 0, "https://youtu.be/x"⟩)]) ∧
    (get_cached_audio true 6 (fun s => s) (fun _ => false) 1000
      [("https://youtu.be/x", ⟨"/tmp/a.m4a", 0, "https://youtu.be/x"⟩)]
      "https://youtu.be/x").1 = none ∧
    lookupCache
      (get_cached_audio true 6 (fun s => s) (fun _ => false) 1000
        [("https://youtu.be/x", ⟨"/tmp/a.m4a", 0, "https://youtu.be/x"⟩)]
        "https://youtu.be/x").2 "https://youtu.be/x" = none := by
  refine ⟨((cache_lookup_spec 6 1000 (fun s => s) (fun p => p == "/tmp/a.m4a")
      [("https://youtu.be/x", ⟨"/tmp/a.m4a", 0, "https://youtu.be/x"⟩)]
      "https://youtu.be/x").1 ⟨"/tmp/a.m4a", 0, "https://youtu.be/x"⟩
      (by decide)).1 ⟨by decide, by decide⟩, ?_, ?_⟩
  · exact (((cache_lookup_spec 6 1000 (fun s => s) (fun _ => false)
      [("https://youtu.be/x", ⟨"/tmp/a.m4a", 0, "https://youtu.be/x"⟩)]
      "https://youtu.be/x").1 ⟨"/tmp/a.m4a", 0, "https://youtu.be/x"⟩
      (by decide)).2 (Or.inr rfl)).1
  · exact (((cache_lookup_spec 6 1000 (fun s => s) (fun _ => false)
      [("https://youtu.be/x", ⟨"/tmp/a.m4a", 0, "https://youtu.be/x"⟩)]
      "https://youtu.be/x").1 ⟨"/tmp/a.m4a", 0, "https://youtu.be/x"⟩
      (by decide)).2 (Or.inr rfl)).2

/-- C4 (refuted by the code): the finalize stage removes the raw
intermediate file unconditionally (`extract_snippet_async` lines 662-664) —
on a cache hit the cache-owned backing file is deleted, and after a fresh
fetch the file just written into the cache loses its backing file, so the
new cache entry dangles. -/
theorem raw_file_deleted_even_when_cached :
    ((acquireAudio true 6 (fun s => s) (fun p => p == "/tmp/cached.m4a") 0
        [("https://youtu.be/abc", ⟨"/tmp/cached.m4a", 0, "https://youtu.be/abc"⟩)]
        "https://youtu.be/abc" "/tmp/fresh.m4a").from_cache = true ∧
      (acquireAudio true 6 (fun s => s) (fun p => p == "/tmp/cached.m4a") 0
        [("https://youtu.be/abc", ⟨"/tmp/cached.m4a", 0, "https://youtu.be/abc"⟩)]
        "https://youtu.be/abc" "/tmp/fresh.m4a").downloaded_file =
        "/tmp/cached.m4a" ∧
      "/tmp/cached.m4a" ∉
        cleanupTemporary ["/tmp/cached.m4a"]
          (acquireAudio true 6 (fun s => s) (fun p => p == "/tmp/cached.m4a") 0
            [("https://youtu.be/abc", ⟨"/tmp/cached.m4a", 0, "https://youtu.be/abc"⟩)]
            "https://youtu.be/abc" "/tmp/fresh.m4a").downloaded_file) ∧
    ((acquireAudio true 6 (fun s => s) (fun _ => false) 0 []
        "https://youtu.be/abc" "/tmp/fresh.m4a").from_cache = false ∧
      (acquireAudio true 6 (fun s => s) (fun _ => false) 0 []
        "https://youtu.be/abc" "/tmp/fresh.m4a").downloaded_file =
        "/tmp/fresh.m4a" ∧
      lookupCache (acquireAudio true 6 (fun s => s) (fun _ => false) 0 []
          "https://youtu.be/abc" "/tmp/fresh.m4a").cache "https://youtu.be/abc" =
        some ⟨"/tmp/fresh.m4a", 0, "https://youtu.be/abc"⟩ ∧
      "/tmp/fresh.m4a" ∉
        cleanupTemporary ["/tmp/fresh.m4a"]
          (acquireAudio true 6 (fun s => s) (fun _ => false) 0 []
            "https://youtu.be/abc" "/tmp/fresh.m4a").downloaded_file) := by
  exact ⟨⟨by decide, by decide, by decide⟩, by decide, by decide, by decide, by decide⟩

theorem sweepFiles_subset (retention_hours max_files : Nat)
    (fs : String → Bool) (now : Nat) (store : List (String × FileInfo)) :
    sweepFiles retention_hours max_files fs now store ⊆ store := by
  unfold sweepFiles sweepFilesCap
  split
  · intro kv hkv
    exact (List.filter_sublist _).subset ((List.filter_sublist _).subset hkv)
  · intro kv hkv
    exact (List.filter_sublist _).subset hkv

theorem sweepFilesCap_spec (max_files : Nat)
    (store' : List (String × FileInfo)) (hnd : (store'.map (·.1)).Nodup)
    (hlen : max_files < store'.length) :
    (sweepFilesCap max_files store').length = max_files ∧
    (∀ kv ∈ store', kv ∉ sweepFilesCap max_files store' →
      ∀ kv' ∈ sweepFilesCap max_files store',
        kv.2.created_at ≤ kv'.2.created_at) := by
  have hif : sweepFilesCap max_files store' =
      store'.filter (fun kv =>
        decide (kv.1 ∉
          (((List.insertionSort createdLE store').take
            (store'.length - max_files)).map (·.1)))) := by
    unfold sweepFilesCap
    rw [if_pos hlen]
  set sorted := List.insertionSort createdLE store' with hsorted
  set k := store'.length - max_files with hk
  set removed := (sorted.take k).map (·.1) with hremoved
  set p := fun kv : String × FileInfo => decide (kv.1 ∉ removed) with hp
  have hperm : List.Perm sorted store' := List.perm_insertionSort _ _
  have hndS : (sorted.map (·.1)).Nodup := ((hperm.map (·.1)).nodup_iff).mpr hnd
  have hsplit : sorted.take k ++ sorted.drop k = sorted := List.take_append_drop k sorted
  have hndA : ((sorted.take k).map (·.1) ++ (sorted.drop k).map (·.1)).Nodup := by
    rw [← List.map_append, hsplit]
    exact hndS
  have hdisj : ∀ key ∈ (sorted.drop k).map (·.1), key ∉ removed := by
    intro key hkey hmem
    exact (List.nodup_append.mp hndA).2.2 hmem hkey
  have hfilter_take : (sorted.take k).filter p = [] := by
    rw [List.filter_eq_nil_iff]
    intro kv hkv
    have hkvr : kv.1 ∈ removed := by
      rw [hremoved]
      exact List.mem_map_of_mem _ hkv
    simp [hp, hkvr]
  have hfilter_drop : (sorted.drop k).filter p = sorted.drop k := by
    rw [List.filter_eq_self]
    intro kv hkv
    have hkvr : kv.1 ∉ removed := hdisj _ (List.mem_map_of_mem _ hkv)
    simp [hp, hkvr]
  have hfp : List.Perm (store'.filter p) (sorted.drop k) := by
    have h1 : List.Perm (sorted.filter p) (store'.filter p) := hperm.filter p
    have h2 : sorted.filter p =
        (sorted.take k).filter p ++ (sorted.drop k).filter p := by
      conv_lhs => rw [← hsplit]
      rw [List.filter_append]
    rw [h2, hfilter_take, hfilter_drop] at h1
    simpa using h1.symm
  constructor
  · rw [hif]
    have hlen1 : (store'.filter p).length = (sorted.drop k).length :=
      hfp.length_eq
    have hlen2 : sorted.length = store'.length := hperm.length_eq
    rw [show (store'.filter fun kv =>
        decide (kv.1 ∉
          (((List.insertionSort createdLE store').take
            (store'.length - max_files)).map (·.1)))) = store'.filter p from rfl]
    rw [hlen1, List.length_drop, hlen2]
    omega
  · intro kv hkvS hnot kv' hkv'
    rw [hif] at hnot hkv'
    have hkv'drop : kv' ∈ sorted.drop k := (hfp.mem_iff).mp hkv'
    have hkvsorted : kv ∈ sorted := hperm.mem_iff.mpr hkvS
    have hkvtake : kv ∈ sorted.take k := by
      have hsplitmem : kv ∈ sorted.take k ++ sorted.drop k := by
        rw [hsplit]
        exact hkvsorted
      rcases List.mem_append.mp hsplitmem with htake | hdrop
      · exact htake
      · exfalso
        have hpkv : p kv = true := by
          have hkvr : kv.1 ∉ removed := hdisj _ (List.mem_map_of_mem _ hdrop)
          simp [hp, hkvr]
        exact hnot (List.mem_filter.mpr ⟨hkvS, hpkv⟩)
    have hsortedP : List.Pairwise createdLE sorted :=
      List.sorted_insertionSort createdLE store'
    have hcross := (List.pairwise_append.mp (by rw [hsplit]; exact hsortedP)).2.2
    exact hcross kv hkvtake kv' hkv'drop

/-- C8: on a sweep with the File Store over the configured cap (after the
age and missing-path eviction), exactly the cap-excess oldest-by-created_at
entries are removed, leaving the store at the cap with the newest entries
surviving; entries older than the retention window or with a missing
backing path are also removed; the sweep never adds entries. -/
theorem sweep_file_store_spec (retention_hours max_files : Nat)
    (fs : String → Bool) (now : Nat) (store : List (String × FileInfo))
    (hnd : (store.map (·.1)).Nodup) :
    (max_files < (sweepFilesAge retention_hours fs now store).length →
      (sweepFiles retention_hours max_files fs now store).length = max_files) ∧
    (∀ kv ∈ store,
      (fileExpired retention_hours now kv.2.created_at = true ∨
        fs kv.2.path = false) →
      kv ∉ sweepFiles retention_hours max_files fs now store) ∧
    (∀ kv ∈ sweepFilesAge retention_hours fs now store,
      kv ∉ sweepFiles retention_hours max_files fs now store →
      ∀ kv' ∈ sweepFiles retention_hours max_files fs now store,
        kv.2.created_at ≤ kv'.2.created_at) ∧
    sweepFiles retention_hours max_files fs now store ⊆ store := by
  have hndS : ((sweepFilesAge retention_hours fs now store).map (·.1)).Nodup :=
    ((List.filter_sublist store).map (·.1)).nodup hnd
  refine ⟨?_, ?_, ?_, sweepFiles_subset _ _ _ _ _⟩
  · intro hcap
    exact (sweepFilesCap_spec max_files _ hndS hcap).1
  · intro kv hkv hbad hmem
    have hmemS : kv ∈ sweepFilesAge retention_hours fs now store := by
      unfold sweepFiles sweepFilesCap at hmem
      split at hmem
      · exact (List.filter_sublist _).subset hmem
      · exact hmem
    have hkeep := (List.mem_filter.mp hmemS).2
    rcases hbad with hb | hb <;> simp [hb] at hkeep
  · intro kv hkv hnot kv' hkv'
    by_cases hcap : max_files < (sweepFilesAge retention_hours fs now store).length
    · exact (sweepFilesCap_spec max_files _ hndS hcap).2 kv hkv hnot kv' hkv'
    · exfalso
      unfold sweepFiles sweepFilesCap at hnot
      rw [if_neg hcap] at hnot
      exact hnot hkv

theorem sweep_file_store_spec_witness :
    (sweepFiles 24 1 (fun p => !(p == "/gone")) 0 demoFileStore).length = 1 ∧
    ("c", demoFile "/gone" 3) ∉
      sweepFiles 24 1 (fun p => !(p == "/gone")) 0 demoFileStore ∧
    (∀ kv' ∈ sweepFiles 24 1 (fun p => !(p == "/gone")) 0 demoFileStore,
      (("b", demoFile "/b" 1) : String × FileInfo).2.created_at ≤
        kv'.2.created_at) :=
  ⟨(sweep_file_store_spec 24 1 (fun p => !(p == "/gone")) 0 demoFileStore
      (by decide)).1 (by decide),
    (sweep_file_store_spec 24 1 (fun p => !(p == "/gone")) 0 demoFileStore
      (by decide)).2.1 ("c", demoFile "/gone" 3) (by decide) (Or.inr (by decide)),
    (sweep_file_store_spec 24 1 (fun p => !(p == "/gone")) 0 demoFileStore
      (by decide)).2.2.1 ("b", demoFile "/b" 1) (by decide) (by decide)⟩

theorem lastOnly_tail {w : JobWrite} {ws : List JobWrite}
    (h : lastOnly (w :: ws) = true) : lastOnly ws = true := by
  cases ws with
  | nil => rfl
  | cons b bs =>
    unfold lastOnly at h
    rw [if_neg (by simp)] at h
    simp only [Bool.and_eq_true] at h
    exact h.2

theorem lastOnly_last {w : JobWrite} {ws : List JobWrite}
    (h : lastOnly (w :: ws) = true) (ht : terminalWrite w = true) :
    ws = [] := by
  cases ws with
  | nil => rfl
  | cons b bs =>
    unfold lastOnly at h
    rw [if_neg (by simp)] at h
    simp only [Bool.and_eq_true] at h
    have h1 := h.1
    rw [ht] at h1
    simp at h1

theorem applyWrite_status (w : JobWrite) (j : Job) :
    (applyWrite w j).status = j.status ∨
    ((applyWrite w j).status = Status.processing ∧
      w = JobWrite.startProcessing) ∨
    terminalWrite w = true := by
  cases w with
  | startProcessing => exact Or.inr (Or.inl ⟨rfl, rfl⟩)
  | infoStage => exact Or.inl rfl
  | cachedStage => exact Or.inl rfl
  | dlVideoStage => exact Or.inl rfl
  | dlAudioStage => exact Or.inl rfl
  | dlHook dp => exact Or.inl rfl
  | dlEta => exact Or.inl rfl
  | dlFinished => exact Or.inl rfl
  | procVideoStage => exact Or.inl rfl
  | procAudioStage => exact Or.inl rfl
  | trimHook t dur =>
    simp only [applyWrite]
    split <;> exact Or.inl rfl
  | videoHook t dur =>
    simp only [applyWrite]
    split <;> exact Or.inl rfl
  | complete now fid size dur => exact Or.inr (Or.inr rfl)
  | fail now msg => exact Or.inr (Or.inr rfl)

theorem stepInv {s s' : Sys} (h : Step s s') (hinv : SysInv s) : SysInv s' := by
  obtain ⟨hlast, hdone⟩ := hinv
  cases h with
  | pipe w rest j =>
    constructor
    · exact lastOnly_tail hlast
    · intro hterm
      rcases applyWrite_status w j with hsame | ⟨hproc, _⟩ | hw
      · rw [hsame] at hterm
        exact absurd (hdone hterm) (List.cons_ne_nil w rest)
      · rw [hproc] at hterm
        rcases hterm with h1 | h1 <;> exact Status.noConfusion h1
      · exact lastOnly_last hlast hw
  | cancel now j rest hc =>
    refine ⟨hlast, ?_⟩
    intro hterm
    rcases hterm with h1 | h1 <;> exact Status.noConfusion h1

theorem reachesInv {s s' : Sys} (h : Reaches s s') (hinv : SysInv s) :
    SysInv s' := by
  induction h with
  | refl => exact hinv
  | tail _ h2 ih => exact stepInv h2 ih

theorem noStepFromDone {s s' : Sys} (hinv : SysInv s)
    (hdone : s.job.status = Status.completed ∨
      s.job.status = Status.failed) :
    ¬ Step s s' := by
  intro hstep
  have hpend := hinv.2 hdone
  cases hstep with
  | pipe w rest j => exact List.noConfusion hpend
  | cancel now j rest hc =>
    rcases hdone with h1 | h1 <;> rcases hc with h2 | h2 <;>
      (rw [h1] at h2; exact Status.noConfusion h2)

/-- C1 is refuted on the code: a job cancelled while its pipeline is still
pending is moved back to `processing` by the pipeline's first write (the
pipeline never checks the status). -/
theorem cancelled_job_resumes_processing : ¬ statusNeverLeavesTerminal := by
  intro h
  have hreach : Reaches (initSys 0 [JobWrite.startProcessing])
      ⟨cancelUpdate 0 (initJob 0), [JobWrite.startProcessing]⟩ :=
    Relation.ReflTransGen.single (Step.cancel 0 (initJob 0) _ (Or.inl rfl))
  have hstep : Step ⟨cancelUpdate 0 (initJob 0), [JobWrite.startProcessing]⟩
      ⟨applyWrite JobWrite.startProcessing (cancelUpdate 0 (initJob 0)), []⟩ :=
    Step.pipe _ _ _
  have heq := h 0 [JobWrite.startProcessing] rfl _ _ hreach hstep rfl
  exact Status.noConfusion heq

/-- C1 corrected: terminal statuses `completed` and `failed` are never left
(cancel refuses them and the pipeline writes nothing after its final write),
but `cancelled` is not absorbing — a still-pending pipeline write overwrites
it, as the counterexample shows. -/
theorem terminal_completed_failed_absorbing :
    ∀ (now : Nat) (p : List JobWrite), lastOnly p = true →
      ∀ s s' : Sys, Reaches (initSys now p) s →
        (s.job.status = Status.completed ∨
          s.job.status = Status.failed) →
        Reaches s s' → s'.job.status = s.job.status := by
  intro now p hp s s' hreach hdone hss
  have hinv0 : SysInv (initSys now p) := by
    refine ⟨hp, ?_⟩
    intro h
    rcases h with h | h <;> exact Status.noConfusion h
  have hinvs : SysInv s := reachesInv hreach hinv0
  induction hss with
  | refl => rfl
  | tail h1 h2 ih =>
    exact absurd h2 (noStepFromDone (reachesInv h1 hinvs)
      (by rw [ih]; exact hdone))

theorem terminal_completed_failed_absorbing_witness :
    (⟨applyWrite (JobWrite.complete 3 "f" 10 none) (initJob 0), []⟩ :
        Sys).job.status = Status.completed ∧
    (⟨applyWrite (JobWrite.complete 3 "f" 10 none) (initJob 0), []⟩ :
        Sys).job.status =
      (⟨applyWrite (JobWrite.complete 3 "f" 10 none) (initJob 0), []⟩ :
        Sys).job.status := by
  constructor
  · rfl
  · exact terminal_completed_failed_absorbing 0
      [JobWrite.complete 3 "f" 10 none] rfl _ _
      (Relation.ReflTransGen.single (Step.pipe _ _ _)) (Or.inl rfl)
      Relation.ReflTransGen.refl

theorem dlPercent_mono {d d' : ℚ} (h : d ≤ d') : dlPercent d ≤ dlPercent d' := by
  unfold dlPercent
  have h1 : d * (55/100) ≤ d' * (55/100) :=
    mul_le_mul_of_nonneg_right h (by norm_num)
  exact min_le_min (by linarith) le_rfl

theorem dlPercent_ge {d : ℚ} (h : 0 ≤ d) : 15 ≤ dlPercent d := by
  unfold dlPercent
  have h1 : 0 ≤ d * (55/100) := mul_nonneg h (by norm_num)
  exact le_min (by linarith) (by norm_num)

theorem dlPercent_le (d : ℚ) : dlPercent d ≤ 70 := min_le_right _ _

theorem trimPercent_mono {t t' dur : ℚ} (hdur : 0 < dur) (h : t ≤ t') :
    trimPercent t dur ≤ trimPercent t' dur := by
  unfold trimPercent
  have h1 : t / dur ≤ t' / dur := by gcongr
  have h2 : t / dur * 100 ≤ t' / dur * 100 :=
    mul_le_mul_of_nonneg_right h1 (by norm_num)
  have h3 : min (t / dur * 100) 100 * (20/100) ≤
      min (t' / dur * 100) 100 * (20/100) :=
    mul_le_mul_of_nonneg_right (min_le_min h2 le_rfl) (by norm_num)
  exact min_le_min (by linarith) le_rfl

theorem trimPercent_ge {t dur : ℚ} (hdur : 0 < dur) (ht : 0 ≤ t) :
    75 ≤ trimPercent t dur := by
  unfold trimPercent
  have h0 : 0 ≤ t / dur := div_nonneg ht hdur.le
  have h1 : 0 ≤ min (t / dur * 100) 100 :=
    le_min (mul_nonneg h0 (by norm_num)) (by norm_num)
  have h2 : 0 ≤ min (t / dur * 100) 100 * (20/100) :=
    mul_nonneg h1 (by norm_num)
  exact le_min (by linarith) (by norm_num)

theorem trimPercent_le (t dur : ℚ) : trimPercent t dur ≤ 95 :=
  min_le_right _ _

theorem nonDecRun_append (j : Job) (ws1 ws2 : List JobWrite) :
    NonDecRun j (ws1 ++ ws2) ↔
      NonDecRun j ws1 ∧ NonDecRun (runWrites j ws1) ws2 := by
  induction ws1 generalizing j with
  | nil => simp [NonDecRun, runWrites]
  | cons w ws ih =>
    simp only [List.cons_append, NonDecRun, runWrites, List.append_eq]
    rw [ih]
    exact and_assoc.symm

theorem nonDecRun_dlHooks :
    ∀ (dps : List ℚ) (j : Job), List.Chain' (· ≤ ·) dps →
      (∀ d, dps.head? = some d → j.percent ≤ dlPercent d) →
      NonDecRun j (dps.map JobWrite.dlHook) := by
  intro dps
  induction dps with
  | nil => intro j _ _; exact trivial
  | cons d rest ih =>
    intro j hchain hfirst
    simp only [List.map_cons]
    refine ⟨?_, ?_⟩
    · simpa [applyWrite] using hfirst d rfl
    · apply ih
      · exact hchain.tail
      · intro d' hd'
        cases rest with
        | nil => exact absurd hd' (by simp)
        | cons e es =>
          simp only [List.head?] at hd'
          injection hd' with he
          have hde : d ≤ d' := he ▸ (List.chain'_cons.mp hchain).1
          show (applyWrite (JobWrite.dlHook d) j).percent ≤ dlPercent d'
          simpa [applyWrite] using dlPercent_mono hde

theorem runWrites_dlHooks_le :
    ∀ (dps : List ℚ) (j : Job), j.percent ≤ 70 →
      (runWrites j (dps.map JobWrite.dlHook)).percent ≤ 70 := by
  intro dps
  induction dps with
  | nil => intro j h; exact h
  | cons d rest ih =>
    intro j _
    simp only [List.map_cons, runWrites]
    exact ih _ (by simpa [applyWrite] using dlPercent_le d)

theorem nonDecRun_trimHooks {dur : ℚ} (hdur : 0 < dur) :
    ∀ (tps : List ℚ) (j : Job), List.Chain' (· ≤ ·) tps →
      (∀ t, tps.head? = some t → j.percent ≤ trimPercent t dur) →
      NonDecRun j (tps.map (fun t => JobWrite.trimHook t dur)) := by
  intro tps
  induction tps with
  | nil => intro j _ _; exact trivial
  | cons t rest ih =>
    intro j hchain hfirst
    simp only [List.map_cons]
    refine ⟨?_, ?_⟩
    · simpa [applyWrite, hdur] using hfirst t rfl
    · apply ih
      · exact hchain.tail
      · intro t' ht'
        cases rest with
        | nil => exact absurd ht' (by simp)
        | cons e es =>
          simp only [List.head?] at ht'
          injection ht' with he
          have hte : t ≤ t' := he ▸ (List.chain'_cons.mp hchain).1
          show (applyWrite (JobWrite.trimHook t dur) j).percent ≤
            trimPercent t' dur
          simpa [applyWrite, hdur] using trimPercent_mono hdur hte

theorem runWrites_trimHooks_le {dur : ℚ} (hdur : 0 < dur) :
    ∀ (tps : List ℚ) (j : Job), j.percent ≤ 95 →
      (runWrites j (tps.map (fun t => JobWrite.trimHook t dur))).percent ≤ 95 := by
  intro tps
  induction tps with
  | nil => intro j h; exact h
  | cons t rest ih =>
    intro j _
    simp only [List.map_cons, runWrites]
    exact ih _ (by simpa [applyWrite, hdur] using trimPercent_le t dur)

/-- C5 is refuted on the code: a later download callback reporting a lower
percentage lowers percent while the job is processing (the hook computes
`min(15 + dp*0.55, 70)` with no max against the stored value), and percent
is not frozen once terminal — cancelling resets it to 0 and the still-running
pipeline keeps overwriting it afterwards. -/
theorem percent_not_monotone :
    ¬ percentMonotone ∧
    (applyWrite (JobWrite.dlHook 10)
        (applyWrite (JobWrite.dlHook 90)
          (applyWrite JobWrite.startProcessing (initJob 0)))).percent <
      (applyWrite (JobWrite.dlHook 90)
        (applyWrite JobWrite.startProcessing (initJob 0))).percent ∧
    (applyWrite (JobWrite.dlHook 90)
        (applyWrite JobWrite.startProcessing (initJob 0))).status =
      Status.processing ∧
    Terminal (cancelUpdate 0
        (applyWrite JobWrite.startProcessing (initJob 0))).status = true ∧
    (applyWrite (JobWrite.dlHook 50)
        (cancelUpdate 0
          (applyWrite JobWrite.startProcessing (initJob 0)))).percent ≠
      (cancelUpdate 0
        (applyWrite JobWrite.startProcessing (initJob 0))).percent := by
  refine ⟨?_, ?_, rfl, rfl, ?_⟩
  · intro h
    have hreach : Reaches
        (initSys 0 [JobWrite.startProcessing, JobWrite.dlHook 90,
          JobWrite.dlHook 10])
        ⟨applyWrite (JobWrite.dlHook 90)
          (applyWrite JobWrite.startProcessing (initJob 0)),
          [JobWrite.dlHook 10]⟩ :=
      Relation.ReflTransGen.head (Step.pipe _ _ _)
        (Relation.ReflTransGen.single (Step.pipe _ _ _))
    have hstep : Step
        ⟨applyWrite (JobWrite.dlHook 90)
          (applyWrite JobWrite.startProcessing (initJob 0)),
          [JobWrite.dlHook 10]⟩
        ⟨applyWrite (JobWrite.dlHook 10)
          (applyWrite (JobWrite.dlHook 90)
            (applyWrite JobWrite.startProcessing (initJob 0))), []⟩ :=
      Step.pipe _ _ _
    have hmono := (h 0 [JobWrite.startProcessing, JobWrite.dlHook 90,
      JobWrite.dlHook 10] rfl _ _ hreach hstep).1 rfl
    have hlt : ¬ ((applyWrite (JobWrite.dlHook 90)
        (applyWrite JobWrite.startProcessing (initJob 0))).percent ≤
        (applyWrite (JobWrite.dlHook 10)
          (applyWrite (JobWrite.dlHook 90)
            (applyWrite JobWrite.startProcessing (initJob 0)))).percent) := by
      simp only [applyWrite, dlPercent]
      norm_num [min_def]
    exact hlt hmono
  · simp only [applyWrite, dlPercent]
    norm_num [min_def]
  · simp only [applyWrite, cancelUpdate, dlPercent]
    norm_num [min_def]

/-- C5 corrected: cancel resets percent to 0, and percent is non-decreasing
along the audio pipeline's own write sequence whenever the external download
and transform progress reports are non-decreasing and non-negative; a lower
external report lowers percent while processing, and a cancelled job's
percent keeps being rewritten by its still-running pipeline (see the
counterexample). -/
theorem percent_monotone_for_monotone_reports :
    (∀ (now : Nat) (j : Job), (cancelUpdate now j).percent = 0) ∧
    (∀ (dps tps : List ℚ) (dur : ℚ) (now n0 : Nat) (fid : String)
        (size : Nat),
      List.Chain' (· ≤ ·) dps → (∀ d ∈ dps, 0 ≤ d) →
      List.Chain' (· ≤ ·) tps → (∀ t ∈ tps, 0 ≤ t) → 0 < dur →
      NonDecRun (initJob n0)
        (audioPipelineWrites dps tps dur now fid size)) := by
  refine ⟨fun now j => rfl, ?_⟩
  intro dps tps dur now n0 fid size hdc hd0 htc ht0 hdur
  unfold audioPipelineWrites
  simp only [List.cons_append, List.nil_append]
  rw [List.append_assoc, List.append_assoc]
  refine ⟨by norm_num [applyWrite, initJob], by norm_num [applyWrite],
    by norm_num [applyWrite], ?_⟩
  rw [nonDecRun_append]
  constructor
  · apply nonDecRun_dlHooks dps _ hdc
    intro d hd
    have h0d : 0 ≤ d := hd0 d (List.mem_of_mem_head? (Option.mem_def.mpr hd))
    show (15 : ℚ) ≤ dlPercent d
    exact dlPercent_ge h0d
  · rw [nonDecRun_append]
    have hj4le : (runWrites
        (applyWrite JobWrite.dlAudioStage
          (applyWrite JobWrite.infoStage
            (applyWrite JobWrite.startProcessing (initJob n0))))
        (dps.map JobWrite.dlHook)).percent ≤ 70 :=
      runWrites_dlHooks_le dps _ (by norm_num [applyWrite])
    constructor
    · refine ⟨?_, ?_, trivial⟩
      · simpa [applyWrite] using hj4le
      · norm_num [applyWrite]
    · rw [nonDecRun_append]
      constructor
      · apply nonDecRun_trimHooks hdur tps _ htc
        intro t ht
        have h0t : 0 ≤ t := ht0 t (List.mem_of_mem_head? (Option.mem_def.mpr ht))
        show (75 : ℚ) ≤ trimPercent t dur
        exact trimPercent_ge hdur h0t
      · have hj6le : (runWrites
            (runWrites
              (runWrites
                (applyWrite JobWrite.dlAudioStage
                  (applyWrite JobWrite.infoStage
                    (applyWrite JobWrite.startProcessing (initJob n0))))
                (dps.map JobWrite.dlHook))
              [JobWrite.dlFinished, JobWrite.procAudioStage])
            (tps.map (fun t => JobWrite.trimHook t dur))).percent ≤ 95 :=
          runWrites_trimHooks_le hdur tps _ (by norm_num [runWrites, applyWrite])
        refine ⟨?_, trivial⟩
        have h100 : (100 : ℚ) = (applyWrite
            (JobWrite.complete now fid size (some dur)) (runWrites
              (runWrites
                (runWrites
                  (applyWrite JobWrite.dlAudioStage
                    (applyWrite JobWrite.infoStage
                      (applyWrite JobWrite.startProcessing (initJob n0))))
                  (dps.map JobWrite.dlHook))
                [JobWrite.dlFinished, JobWrite.procAudioStage])
              (tps.map (fun t => JobWrite.trimHook t dur)))).percent := rfl

        rw [← h100]
        linarith [hj6le]

theorem percent_monotone_witness :
    (cancelUpdate 5 (initJob 0)).percent = 0 ∧
    NonDecRun (initJob 0)
      (audioPipelineWrites [0, 50] [1, 2] 30 9 "fid" 7) := by
  constructor
  · exact percent_monotone_for_monotone_reports.1 5 (initJob 0)
  · apply percent_monotone_for_monotone_reports.2 [0, 50] [1, 2] 30 9 0 "fid" 7
    · norm_num [List.chain'_cons]
    · intro d hd
      fin_cases hd <;> norm_num
    · norm_num [List.chain'_cons]
    · intro t ht
      fin_cases ht <;> norm_num
    · norm_num

end MediaCut
